import Mathlib

/-!
Shallow embedding of the combat-resolution core of the tower-defense game
(entity health/damage/status machinery, enemy rewards, object pooling,
tower attack gating, magic-tower chain lightning, tower placement), together
with theorems settling the specification claims.

Numeric conventions: JS numbers are embedded as rationals (`ℚ`).  The source
helper `distance` returns `Math.sqrt (dx^2 + dy^2)`; every use in the embedded
code compares a distance against a nonnegative bound or against another
distance, so comparisons are carried out on squared distances (`Real.sqrt` is
monotone on nonnegative inputs, so the comparisons are equivalent).
`performance.now()` is passed in explicitly as a `now : ℚ` parameter.
-/

namespace TowerDefense

/-- 2D point, embedding the `Vector2` utility class. -/
structure Vec2 where
  x : ℚ
  y : ℚ
deriving Repr, DecidableEq

/-- Squared distance between two points; stands for `distance(...)^2` from
the utility module (`Math.sqrt ((x2-x1)**2 + (y2-y1)**2)` squared). -/
def distSq (a b : Vec2) : ℚ :=
  (b.x - a.x) ^ 2 + (b.y - a.y) ^ 2

/-- `Math.round`: round half toward positive infinity. -/
def jsRound (q : ℚ) : ℤ := ⌊q + 1 / 2⌋

/-- One stored status effect: `{duration, strength, startTime}` as written by
`LivingEntity.applyStatusEffect`. -/
structure Effect where
  duration : ℚ
  strength : ℚ
  startTime : ℚ
deriving Repr, DecidableEq

/-- JS `Map.set` on an insertion-ordered association list: replaces the entry
in place when the key is present, otherwise appends at the end. -/
def alistSet {α : Type} (m : List (String × α)) (k : String) (v : α) :
    List (String × α) :=
  match m with
  | [] => [(k, v)]
  | (k', v') :: rest =>
      if k' = k then (k, v) :: rest else (k', v') :: alistSet rest k v

/-- JS `Map.get`. -/
def alistGet {α : Type} (m : List (String × α)) (k : String) : Option α :=
  match m with
  | [] => none
  | (k', v') :: rest => if k' = k then some v' else alistGet rest k

/-- JS `Map.has`. -/
def alistHas {α : Type} (m : List (String × α)) (k : String) : Bool :=
  (alistGet m k).isSome

/-- JS `Map.delete` (first matching key; a JS map holds each key once). -/
def alistDelete {α : Type} (m : List (String × α)) (k : String) :
    List (String × α) :=
  match m with
  | [] => []
  | (k', v') :: rest =>
      if k' = k then rest else (k', v') :: alistDelete rest k

/-- The immutable per-enemy stats installed by the `Enemy` constructor. -/
structure EnemyStats where
  speed : ℚ
  goldReward : ℚ
  scoreReward : ℚ
  armor : ℚ
  magicResist : ℚ
  /-- Contact damage dealt to the player when the enemy reaches the path end. -/
  contactDamage : ℚ
deriving Repr, DecidableEq

/-- The mutable state of an `Enemy` (an `Entity`/`LivingEntity`/`Enemy`
instance).  `id` models JS object identity: distinct live objects carry
distinct ids.  Fields that only feed rendering (size, walk cycle, bounding
box, health-bar layout) are omitted; `velocity` stays `(0,0)` for enemies
(enemy movement goes through `followPath`, not `Entity.update`). -/
structure Enemy where
  id : ℕ
  pos : Vec2
  maxHealth : ℚ
  health : ℚ
  isDead : Bool
  isAlive : Bool
  isVisible : Bool
  invulnerable : Bool
  invulnerabilityTime : ℚ
  damageFlashTime : ℚ
  lastDamageTime : ℚ
  /-- Display value written by `Enemy.onDamage` (`Math.round(finalDamage)`). -/
  lastDamageAmount : ℚ
  statusEffects : List (String × Effect)
  stats : EnemyStats
  statusResistance : List (String × ℚ)
  path : List Vec2
  currentWaypoint : ℕ
  baseSpeed : ℚ
  currentSpeed : ℚ
deriving Repr, DecidableEq

/-- `Enemy.onDamage`: computes the armor- or magic-resist-reduced
`finalDamage`, starts the hit flash, and records the rounded `finalDamage`
for display.  Note that `finalDamage` is used only for the recorded display
amount — the health subtraction already happened in
`LivingEntity.takeDamage`, on the raw amount. -/
def enemyOnDamage (e : Enemy) (amount : ℚ) (damageType : String) (now : ℚ) :
    Enemy :=
  let finalDamage : ℚ :=
    if damageType = "physical" ∧ 0 < e.stats.armor then
      max 1 (amount - e.stats.armor)
    else if damageType = "magic" ∧ 0 < e.stats.magicResist then
      max 1 (amount * (1 - e.stats.magicResist))
    else amount
  { e with
    damageFlashTime := 200
    lastDamageAmount := (jsRound finalDamage : ℚ)
    lastDamageTime := now }

/-- `LivingEntity.takeDamage` as executed on an `Enemy` (the dynamic
`onDamage` dispatch resolves to `Enemy.onDamage`).  Returns the updated enemy
and the boolean result of the call. -/
def takeDamage (e : Enemy) (amount : ℚ) (damageType : String) (now : ℚ) :
    Enemy × Bool :=
  if e.invulnerable ∨ e.isDead then (e, false)
  else
    let e1 :=
      { e with
        health := max 0 (e.health - amount)
        lastDamageTime := now
        damageFlashTime := 200
        invulnerable := true
        invulnerabilityTime := 100 }
    (enemyOnDamage e1 amount damageType now, true)

/-- `LivingEntity.heal` (`onHeal` is a no-op for enemies). -/
def heal (e : Enemy) (amount : ℚ) : Enemy :=
  if e.isDead then e
  else { e with health := min e.maxHealth (e.health + amount) }

/-- `Enemy.onStatusEffectApplied`: the resistance-scaled `(duration,
strength)` pair the hook computes.  In the source these reassignments hit
the hook's local parameters only — the values are never written back to the
stored effect entry (the rest of the hook spawns particles and plays a
sound). -/
def statusEffectAppliedLocals (e : Enemy) (type : String)
    (duration strength : ℚ) : ℚ × ℚ :=
  match alistGet e.statusResistance type with
  | some resistance => (duration * (1 - resistance), strength * (1 - resistance))
  | none => (duration, strength)

/-- `LivingEntity.applyStatusEffect` as executed on an `Enemy`: upserts the
raw `{duration, strength, startTime}` entry, then runs the
`Enemy.onStatusEffectApplied` hook (whose scaled locals are discarded, see
`statusEffectAppliedLocals`). -/
def applyStatusEffect (e : Enemy) (type : String) (duration strength now : ℚ) :
    Enemy :=
  { e with
    statusEffects :=
      alistSet e.statusEffects type ⟨duration, strength, now⟩ }

/-- `LivingEntity.removeStatusEffect` (the removal hook is visual only). -/
def removeStatusEffect (e : Enemy) (type : String) : Enemy :=
  if alistHas e.statusEffects type then
    { e with statusEffects := alistDelete e.statusEffects type }
  else e

/-- `LivingEntity.updateStatusEffects`: every entry's duration drops by
`deltaTime`; entries crossing `≤ 0` are removed (`onStatusEffectUpdate` and
`onStatusEffectRemoved` have no state effect for enemies). -/
def updateStatusEffects (e : Enemy) (deltaTime : ℚ) : Enemy :=
  { e with
    statusEffects :=
      (e.statusEffects.map fun p =>
        (p.1, { p.2 with duration := p.2.duration - deltaTime })).filter
        fun p => 0 < p.2.duration }

/-- The player resources touched by the enemy death hook
(`Game.addGold` / `Game.addScore` are plain additions). -/
structure GameRes where
  gold : ℚ
  score : ℚ
deriving Repr, DecidableEq

/-- `LivingEntity.onDeath`. -/
def livingOnDeath (e : Enemy) : Enemy :=
  { e with isDead := true, isAlive := false }

/-- `Enemy.onDeath`: `super.onDeath()` then — unconditionally — grants the
gold and score rewards (the remainder of the hook spawns particles and plays
a sound).  The Knight/Dragon overrides call this and add visuals only. -/
def enemyOnDeath (e : Enemy) (g : GameRes) : Enemy × GameRes :=
  (livingOnDeath e,
   { g with
     gold := g.gold + e.stats.goldReward
     score := g.score + e.stats.scoreReward })

/-- The invulnerability-window countdown at the top of
`LivingEntity.update`. -/
def tickInvulnerability (e : Enemy) (deltaTime : ℚ) : Enemy :=
  if e.invulnerable ∧ 0 < e.invulnerabilityTime then
    let t := e.invulnerabilityTime - deltaTime
    if t ≤ 0 then { e with invulnerabilityTime := t, invulnerable := false }
    else { e with invulnerabilityTime := t }
  else e

/-- The damage-flash countdown in `LivingEntity.update`. -/
def tickDamageFlash (e : Enemy) (deltaTime : ℚ) : Enemy :=
  if 0 < e.damageFlashTime then
    { e with damageFlashTime := e.damageFlashTime - deltaTime }
  else e

/-- `LivingEntity.update` as executed on an `Enemy`: the invulnerability
countdown, the damage-flash countdown, status-effect decay, and the death
check (`health ≤ 0 ∧ ¬isDead → onDeath`).  `Entity.update`'s velocity
integration is the identity here since enemies keep `velocity = (0,0)`. -/
def livingUpdate (e : Enemy) (deltaTime : ℚ) (g : GameRes) : Enemy × GameRes :=
  let e3 :=
    updateStatusEffects (tickDamageFlash (tickInvulnerability e deltaTime)
      deltaTime) deltaTime
  if e3.health ≤ 0 ∧ ¬e3.isDead then enemyOnDeath e3 g else (e3, g)

/-- Iterated `LivingEntity.update` over a list of frame deltas. -/
def livingUpdateRun (e : Enemy) (deltas : List ℚ) (g : GameRes) :
    Enemy × GameRes :=
  match deltas with
  | [] => (e, g)
  | d :: rest =>
      let (e', g') := livingUpdate e d g
      livingUpdateRun e' rest g'

/-- The `Knight` constructor at `(x, y)` (health 80, armor 3, magic resist
0.1, 30% slow resistance, 50% freeze resistance). -/
def mkKnight (id : ℕ) (x y : ℚ) : Enemy :=
  { id := id
    pos := ⟨x, y⟩
    maxHealth := 80
    health := 80
    isDead := false
    isAlive := true
    isVisible := true
    invulnerable := false
    invulnerabilityTime := 0
    damageFlashTime := 0
    lastDamageTime := 0
    lastDamageAmount := 0
    statusEffects := []
    stats :=
      { speed := 35, goldReward := 5, scoreReward := 15, armor := 3
        magicResist := 1 / 10, contactDamage := 2 }
    statusResistance := [("slow", 3 / 10), ("freeze", 1 / 2)]
    path := []
    currentWaypoint := 0
    baseSpeed := 35
    currentSpeed := 35 }

/-- The `Scout` constructor at `(x, y)` (health 20, no armor, zero declared
slow/freeze resistance). -/
def mkScout (id : ℕ) (x y : ℚ) : Enemy :=
  { id := id
    pos := ⟨x, y⟩
    maxHealth := 20
    health := 20
    isDead := false
    isAlive := true
    isVisible := true
    invulnerable := false
    invulnerabilityTime := 0
    damageFlashTime := 0
    lastDamageTime := 0
    lastDamageAmount := 0
    statusEffects := []
    stats :=
      { speed := 90, goldReward := 2, scoreReward := 5, armor := 0
        magicResist := 0, contactDamage := 1 }
    statusResistance := [("slow", 0), ("freeze", 0)]
    path := []
    currentWaypoint := 0
    baseSpeed := 90
    currentSpeed := 90 }

/-- The `Dragon` constructor at `(x, y)` (health 50, armor 1, magic resist
0.3). -/
def mkDragon (id : ℕ) (x y : ℚ) : Enemy :=
  { id := id
    pos := ⟨x, y⟩
    maxHealth := 50
    health := 50
    isDead := false
    isAlive := true
    isVisible := true
    invulnerable := false
    invulnerabilityTime := 0
    damageFlashTime := 0
    lastDamageTime := 0
    lastDamageAmount := 0
    statusEffects := []
    stats :=
      { speed := 55, goldReward := 8, scoreReward := 30, armor := 1
        magicResist := 3 / 10, contactDamage := 3 }
    statusResistance := [("slow", 6 / 10), ("freeze", 8 / 10)]
    path := []
    currentWaypoint := 0
    baseSpeed := 55
    currentSpeed := 55 }

/-- One call of the health-mutating interface of `LivingEntity`. -/
inductive LifeOp where
  | damage (amount : ℚ) (damageType : String) (now : ℚ)
  | heal (amount : ℚ)

/-- The raw amount carried by a call. -/
def LifeOp.amount : LifeOp → ℚ
  | .damage a _ _ => a
  | .heal a => a

/-- Execute one call on an enemy. -/
def applyLifeOp (e : Enemy) : LifeOp → Enemy
  | .damage a t n => (takeDamage e a t n).1
  | .heal a => heal e a

/-- Execute a sequence of `takeDamage`/`heal` calls. -/
def runLifeOps (e : Enemy) (ops : List LifeOp) : Enemy :=
  ops.foldl applyLifeOp e

/-- `EnemyManager.resetEnemy`, installed as every enemy pool's reset
callback; `path` and `spawnPoint` are the manager's. -/
def resetEnemy (path : List Vec2) (spawnPoint : Vec2) (e : Enemy) : Enemy :=
  { e with
    pos := match path with | p :: _ => p | [] => spawnPoint
    health := e.maxHealth
    isAlive := true
    isDead := false
    isVisible := true
    currentWaypoint := 0
    statusEffects := []
    currentSpeed := e.baseSpeed
    invulnerable := false
    damageFlashTime := 0 }

/-- `ObjectPool` as the `EnemyManager` instantiates it for a single enemy
type.  `pool` is the free list and `activeObjects` the active list, both JS
arrays (`push` appends at the end, `pop` removes the last element).
`createFn` builds a fresh enemy; it takes the next unused id, modeling that
a newly constructed JS object is distinct from every existing one. -/
structure ObjectPool where
  createFn : ℕ → Enemy
  nextId : ℕ
  pool : List Enemy
  activeObjects : List Enemy

/-- `ObjectPool.get`: reuse the last free instance if the free list is
nonempty, else construct a new one; either way append it to the active
list. -/
def poolGet (p : ObjectPool) : Enemy × ObjectPool :=
  match p.pool.getLast? with
  | some obj =>
      (obj, { p with
              pool := p.pool.dropLast
              activeObjects := p.activeObjects ++ [obj] })
  | none =>
      let obj := p.createFn p.nextId
      (obj, { p with
              nextId := p.nextId + 1
              activeObjects := p.activeObjects ++ [obj] })

/-- `indexOf` + `splice(index, 1)` on the active list: removes the first
entry with the given identity, or reports that none was found. -/
def removeFirstById : List Enemy → ℕ → Option (List Enemy)
  | [], _ => none
  | a :: rest, i =>
      if a.id = i then some rest
      else (removeFirstById rest i).map (a :: ·)

/-- `ObjectPool.release` with `resetEnemy` as the reset callback: if the
object is in the active list, splice it out, run the reset callback on it
and push it onto the free list; otherwise do nothing. -/
def poolRelease (path : List Vec2) (spawnPoint : Vec2) (p : ObjectPool)
    (obj : Enemy) : ObjectPool :=
  match removeFirstById p.activeObjects obj.id with
  | some remaining =>
      { p with
        activeObjects := remaining
        pool := p.pool ++ [resetEnemy path spawnPoint obj] }
  | none => p

/-- The base tower stats installed by the `Tower` constructor
(`attackSpeed` in attacks per second). -/
structure TowerStats where
  damage : ℚ
  range : ℚ
  attackSpeed : ℚ
  cost : ℚ
  upgradeCost : ℚ
  sellValue : ℚ
deriving Repr, DecidableEq

/-- The base `Tower` state.  The current target is the weak reference from
the spec, modeled as the id of the referenced enemy and re-read from the
live-enemy list on every use; rendering fields (range display, selection)
are omitted, and the subclass projectile lists live outside this claim
set. -/
structure Tower where
  pos : Vec2
  stats : TowerStats
  level : ℕ
  maxLevel : ℕ
  target : Option ℕ
  lastAttackTime : ℚ
  attackCooldown : ℚ
  canAttack : Bool
deriving Repr, DecidableEq

/-- The `Tower` constructor: level 1, no target, `lastAttackTime = 0`,
cooldown `1000 / attackSpeed` milliseconds. -/
def mkTower (pos : Vec2) (stats : TowerStats) : Tower :=
  { pos := pos
    stats := stats
    level := 1
    maxLevel := 3
    target := none
    lastAttackTime := 0
    attackCooldown := 1000 / stats.attackSpeed
    canAttack := true }

/-- `ArcherTower` constructor stats. -/
def archerStats : TowerStats :=
  { damage := 12, range := 85, attackSpeed := 5 / 2, cost := 10
    upgradeCost := 15, sellValue := 8 }

/-- `CannonTower` constructor stats (`explosionRadius` lives on the
subclass). -/
def cannonStats : TowerStats :=
  { damage := 25, range := 130, attackSpeed := 2 / 5, cost := 25
    upgradeCost := 40, sellValue := 20 }

/-- `MagicTower` constructor stats (`chainCount`/`chainRange`/`slowAmount`
live on the subclass). -/
def magicStats : TowerStats :=
  { damage := 2, range := 100, attackSpeed := 1, cost := 20
    upgradeCost := 30, sellValue := 15 }

/-- Dereference a weak enemy reference in the current live list. -/
def lookupEnemy (enemies : List Enemy) (i : ℕ) : Option Enemy :=
  enemies.find? fun e => e.id = i

/-- The scan loop of `Tower.findTarget`: the live enemy with the strictly
smallest distance that is within nominal range, first-encountered winning
ties.  The accumulator carries the best candidate and its (squared)
distance; `none` stands for the initial `closestDistance = Infinity`. -/
def scanNearest (pos : Vec2) (range : ℚ) (enemies : List Enemy) :
    Option Enemy :=
  (enemies.foldl
    (fun acc en =>
      if ¬en.isAlive then acc
      else
        let d := distSq pos en.pos
        match acc with
        | none => if d ≤ range ^ 2 then some (en, d) else acc
        | some prev => if d ≤ range ^ 2 ∧ d < prev.2 then some (en, d) else acc)
    none).map Prod.fst

/-- `Tower.findTarget` (also inherited by `MagicTower`): keep the current
target if it is alive and within the generous `2.0 ×` re-validation radius,
else scan for the nearest live enemy within nominal range.  Returns the
found enemy; the caller stores its identity in `target`. -/
def findTargetFrom (pos : Vec2) (range : ℚ) (cur : Option ℕ)
    (enemies : List Enemy) : Option Enemy :=
  match cur with
  | some tid =>
      match lookupEnemy enemies tid with
      | some en =>
          if en.isAlive ∧ distSq pos en.pos ≤ (range * 2) ^ 2 then some en
          else scanNearest pos range enemies
      | none => scanNearest pos range enemies
  | none => scanNearest pos range enemies

/-- The target-validity check at the top of `Tower.update`: clear the
target when it is dead or beyond the `2.0 ×` re-validation radius (a
reference whose enemy has left the live list is likewise treated as
invalid). -/
def validateTarget (t : Tower) (enemies : List Enemy) : Tower :=
  match t.target with
  | some tid =>
      match lookupEnemy enemies tid with
      | some en =>
          if ¬en.isAlive ∨ (t.stats.range * 2) ^ 2 < distSq t.pos en.pos then
            { t with target := none }
          else t
      | none => { t with target := none }
  | none => t

/-- `Tower.update` (base class): after target validation and
re-acquisition, fire exactly when a target exists, it is alive and within
the `1.5 ×` firing radius, and `now - lastAttackTime ≥ attackCooldown`; on
fire, `lastAttackTime` resets to `now` (the subclass `attack()` bodies
spawn projectiles and do not touch the cooldown state). -/
def towerUpdate (t : Tower) (enemies : List Enemy) (now : ℚ) : Tower :=
  if ¬t.canAttack then t
  else
    let t1 := validateTarget t enemies
    let found := findTargetFrom t1.pos t1.stats.range t1.target enemies
    let t2 := { t1 with target := found.map Enemy.id }
    match found with
    | some en =>
        if en.isAlive ∧ distSq t2.pos en.pos ≤ (t2.stats.range * 3 / 2) ^ 2 ∧
            t2.attackCooldown ≤ now - t2.lastAttackTime then
          { t2 with lastAttackTime := now }
        else t2
    | none => t2

/-- The `MagicTower` subclass state: the base `Tower` fields it uses plus
its special-ability fields.  Its constructor overrides the inherited
`attackCooldown` into an independent countdown starting at 0. -/
structure MagicTower where
  pos : Vec2
  stats : TowerStats
  level : ℕ
  chainCount : ℕ
  chainRange : ℚ
  slowAmount : ℚ
  attackCooldown : ℚ
  canAttack : Bool
  slowedEnemies : List ℕ
  target : Option ℕ
deriving Repr, DecidableEq

/-- The `MagicTower` constructor: `chainCount = 3`, `chainRange = 60`,
`slowAmount = 0.36`, countdown 0. -/
def mkMagicTower (pos : Vec2) : MagicTower :=
  { pos := pos
    stats := magicStats
    level := 1
    chainCount := 3
    chainRange := 60
    slowAmount := 36 / 100
    attackCooldown := 0
    canAttack := true
    slowedEnemies := []
    target := none }

/-- The per-tick slow pass of `MagicTower.update`: every live enemy within
range receives `slow(10000, slowAmount)`. -/
def magicSlowPass (mt : MagicTower) (enemies : List Enemy) (now : ℚ) :
    List Enemy :=
  enemies.map fun en =>
    if en.isAlive ∧ distSq mt.pos en.pos ≤ mt.stats.range ^ 2 then
      applyStatusEffect en "slow" 10000 mt.slowAmount now
    else en

/-- The ids collected in `currentEnemiesInRange` during the slow pass. -/
def currentInRange (mt : MagicTower) (enemies : List Enemy) : List ℕ :=
  (enemies.filter fun en =>
    en.isAlive ∧ distSq mt.pos en.pos ≤ mt.stats.range ^ 2).map Enemy.id

/-- The diff pass of `MagicTower.update`: enemies tracked as slowed that are
no longer in range lose their slow effect. -/
def removeSlowDeparted (mt : MagicTower) (current : List ℕ)
    (enemies : List Enemy) : List Enemy :=
  enemies.map fun en =>
    if en.id ∈ mt.slowedEnemies ∧ en.id ∉ current then
      removeStatusEffect en "slow"
    else en

/-- The loop body of `findNextChainTarget`: skip dead or already-hit
enemies; otherwise keep the closer of the accumulator and the current enemy
(`none` stands for the initial `closestDistance = Infinity`; the strict `<`
makes the first-encountered enemy win ties). -/
def chainStep (cur : Enemy) (chainRange : ℚ) (hitIds : List ℕ)
    (acc : Option (Enemy × ℚ)) (en : Enemy) : Option (Enemy × ℚ) :=
  if ¬en.isAlive ∨ en.id ∈ hitIds then acc
  else
    let d := distSq cur.pos en.pos
    match acc with
    | none => if d ≤ chainRange ^ 2 then some (en, d) else acc
    | some prev =>
        if d ≤ chainRange ^ 2 ∧ d < prev.2 then some (en, d) else acc

/-- `MagicTower.findNextChainTarget`: the nearest live, not-yet-hit enemy
within `chainRange` of the current (previously hit) enemy — distances are
measured from the previous hit, not from the tower. -/
def findNextChainTarget (cur : Enemy) (chainRange : ℚ) (hitIds : List ℕ)
    (enemies : List Enemy) : Option Enemy :=
  (enemies.foldl (chainStep cur chainRange hitIds) none).map Prod.fst

/-- `MagicTower.attackEnemy` applied through the live list: the referenced
enemy, if alive, takes the tower's damage (untyped). -/
def attackEnemyById (enemies : List Enemy) (tid : ℕ) (damage now : ℚ) :
    List Enemy :=
  enemies.map fun en =>
    if en.id = tid ∧ en.isAlive then (takeDamage en damage "normal" now).1
    else en

/-- The `while` loop of `performChainLightning`: as long as fewer than
`chainCount` enemies are hit, hop to `findNextChainTarget` of the previous
hit with the already-hit set excluded.  Returns the final enemy list and
the ordered hit ids. -/
def chainLoop (mt : MagicTower) (now : ℚ) :
    ℕ → Enemy → List ℕ → List Enemy → List Enemy × List ℕ
  | 0, _, hit, enemies => (enemies, hit)
  | fuel + 1, cur, hit, enemies =>
      match findNextChainTarget cur mt.chainRange hit enemies with
      | some nxt =>
          chainLoop mt now fuel nxt (hit ++ [nxt.id])
            (attackEnemyById enemies nxt.id mt.stats.damage now)
      | none => (enemies, hit)

/-- `MagicTower.performChainLightning`: attack the first target, then chain.
The loop counter starts at 1 after the first hit, so at most
`chainCount - 1` hops follow. -/
def performChainLightning (mt : MagicTower) (firstTarget : Enemy)
    (enemies : List Enemy) (now : ℚ) : List Enemy × List ℕ :=
  chainLoop mt now (mt.chainCount - 1) firstTarget [firstTarget.id]
    (attackEnemyById enemies firstTarget.id mt.stats.damage now)

/-- `MagicTower.update`: decrement the countdown, run the slow pass (apply
in range, remove from departed, retrack), and — once the countdown has run
out and `findTarget` yields a target — perform the chain-lightning strike
and reset the countdown to `1000 / attackSpeed`.  The boolean reports
whether a strike fired this frame. -/
def magicUpdate (mt : MagicTower) (deltaTime : ℚ) (enemies : List Enemy)
    (now : ℚ) : MagicTower × List Enemy × Bool :=
  if ¬mt.canAttack then (mt, enemies, false)
  else
    let cooldown1 := mt.attackCooldown - deltaTime
    let current := currentInRange mt enemies
    let enemies2 := removeSlowDeparted mt current (magicSlowPass mt enemies now)
    if cooldown1 ≤ 0 then
      match findTargetFrom mt.pos mt.stats.range mt.target enemies2 with
      | some first =>
          ({ mt with
              slowedEnemies := current
              target := some first.id
              attackCooldown := 1000 / mt.stats.attackSpeed },
           (performChainLightning mt first enemies2 now).1, true)
      | none =>
          ({ mt with
              slowedEnemies := current
              target := none
              attackCooldown := cooldown1 }, enemies2, false)
    else
      ({ mt with slowedEnemies := current, attackCooldown := cooldown1 },
       enemies2, false)

/-- One frame's inputs to `MagicTower.update`. -/
structure MagicStep where
  deltaTime : ℚ
  enemies : List Enemy
  now : ℚ

/-- Iterated `MagicTower.update`, collecting each frame's fired flag. -/
def magicRun (mt : MagicTower) : List MagicStep → MagicTower × List Bool
  | [] => (mt, [])
  | s :: rest =>
      let r := magicUpdate mt s.deltaTime s.enemies s.now
      ((magicRun r.1 rest).1, r.2.2 :: (magicRun r.1 rest).2)

/-- A chain-hop candidate: live, not yet hit, within the chain radius of
the current (previously hit) enemy. -/
def Cand (cur : Enemy) (r : ℚ) (hit : List ℕ) (en : Enemy) : Prop :=
  en.isAlive = true ∧ en.id ∉ hit ∧ distSq cur.pos en.pos ≤ r ^ 2

/-- The per-hop requirement of the chain: the next hit enemy is live, not
yet hit, within the chain radius of the previous hit enemy `cur`, and no
other not-yet-hit live enemy of the list within that radius is closer to
`cur` (distances from `cur`, not from the tower). -/
def NearestChainHop (enemies : List Enemy) (r : ℚ) (cur nxt : Enemy)
    (hit : List ℕ) : Prop :=
  nxt.isAlive = true ∧ nxt.id ∉ hit ∧ distSq cur.pos nxt.pos ≤ r ^ 2 ∧
    ∀ other ∈ enemies, other.isAlive = true → other.id ∉ hit →
      distSq cur.pos other.pos ≤ r ^ 2 →
      distSq cur.pos nxt.pos ≤ distSq cur.pos other.pos

/-- Five live Scouts in a row, 10 units apart — pairwise within the fresh
magic tower's chain radius of 60. -/
def clusteredScouts : List Enemy :=
  [mkScout 1 10 0, mkScout 2 20 0, mkScout 3 30 0, mkScout 4 40 0,
   mkScout 5 50 0]

/-- The three tower kinds of the placement switches. -/
inductive TowerKind where
  | archer
  | cannon
  | magic
deriving Repr, DecidableEq

/-- The cost switch shared by `Game.selectTowerType` and
`Game.placeTower`. -/
def towerCost : TowerKind → ℚ
  | .archer => 10
  | .cannon => 25
  | .magic => 20

/-- `TowerManager.placeTower`: construct the tower of the requested kind at
the (already grid-snapped) coordinates and append it (`addTower` pushes at
the end).  Base-class view of the constructed tower; the magic tower's
constructor overrides the inherited cooldown to 0 and keeps its subclass
fields elsewhere. -/
def tmPlaceTower (towers : List Tower) (kind : TowerKind) (x y : ℚ) :
    List Tower × Tower :=
  let tower :=
    match kind with
    | .archer => mkTower ⟨x, y⟩ archerStats
    | .cannon => mkTower ⟨x, y⟩ cannonStats
    | .magic => { mkTower ⟨x, y⟩ magicStats with attackCooldown := 0 }
  (towers ++ [tower], tower)

/-- The game state `TowerManager.canPlaceTower` reads: map dimensions in
cells, the buildability grid (`cell.canBuildTower`), and the path
waypoints. -/
structure PlacementEnv where
  mapWidth : ℕ
  mapHeight : ℕ
  map : List (List Bool)
  path : List Vec2

/-- `TowerManager.canPlaceTower` (`gridSize = 40`): map bounds, cell
buildability (skipped when the grid indices fall outside the map data, as
in the source's bounds guard), no existing tower within one grid cell, and
no path point within 35 units. -/
def canPlaceTower (env : PlacementEnv) (towers : List Tower) (x y : ℚ) :
    Bool :=
  let gridSize : ℚ := 40
  if x < 0 ∨ (env.mapWidth : ℚ) * gridSize ≤ x ∨ y < 0 ∨
      (env.mapHeight : ℚ) * gridSize ≤ y then false
  else
    let mapX := (⌊x / gridSize⌋).toNat
    let mapY := (⌊y / gridSize⌋).toNat
    let cellOk :=
      match env.map.get? mapY with
      | some row =>
          match row.get? mapX with
          | some cell => cell
          | none => true
      | none => true
    if !cellOk then false
    else if towers.any fun t => distSq t.pos ⟨x, y⟩ < gridSize ^ 2 then false
    else if env.path.any fun p => distSq p ⟨x, y⟩ < 35 ^ 2 then false
    else true

/-- The placement-relevant slice of the `Game` state. -/
structure GState where
  gold : ℚ
  selectedTowerType : Option TowerKind
  isPlacingTower : Bool
  towers : List Tower
  env : PlacementEnv

/-- `Game.placeTower`: bail out without a selection; snap the click to the
cell center; bail out on an invalid cell; then, only when gold covers the
selected kind's cost, add the tower and deduct the cost in the same
synchronous step (the construction switch always yields a tower for the
three kinds, so the `if (tower)` guard always passes there). -/
def gamePlaceTower (s : GState) (x y : ℚ) : GState :=
  match s.selectedTowerType with
  | none => s
  | some kind =>
      let gridSize : ℚ := 40
      let gridX := (⌊x / gridSize⌋ : ℚ) * gridSize + gridSize / 2
      let gridY := (⌊y / gridSize⌋ : ℚ) * gridSize + gridSize / 2
      if ¬canPlaceTower s.env s.towers gridX gridY then s
      else if towerCost kind ≤ s.gold then
        { s with
          towers := (tmPlaceTower s.towers kind gridX gridY).1
          gold := s.gold - towerCost kind
          isPlacingTower := false
          selectedTowerType := none }
      else s

/-- A minimal valid placement situation: gold 10, Archer selected, an empty
2-by-2 all-buildable map, no towers, no path. -/
def placementDemo : GState :=
  { gold := 10
    selectedTowerType := some TowerKind.archer
    isPlacingTower := true
    towers := []
    env :=
      { mapWidth := 2
        mapHeight := 2
        map := [[true, true], [true, true]]
        path := [] } }

theorem alistGet_set {α : Type} (m : List (String × α)) (k : String) (v : α) :
    alistGet (alistSet m k v) k = some v := by
  induction m with
  | nil => simp [alistSet, alistGet]
  | cons p rest ih =>
      obtain ⟨k', v'⟩ := p
      by_cases h : k' = k <;> simp [alistSet, alistGet, h, ih]

theorem filter_key_of_not_mem {α : Type} (m : List (String × α)) (k : String)
    (h : k ∉ m.map Prod.fst) :
    m.filter (fun p => p.1 = k) = [] := by
  induction m with
  | nil => rfl
  | cons p rest ih =>
      obtain ⟨k', v'⟩ := p
      simp only [List.map_cons, List.mem_cons] at h
      push_neg at h
      simp [List.filter_cons, Ne.symm h.1, ih h.2]

theorem alistSet_keys {α : Type} (m : List (String × α)) (k : String)
    (v : α) :
    (alistSet m k v).map Prod.fst =
      if k ∈ m.map Prod.fst then m.map Prod.fst
      else m.map Prod.fst ++ [k] := by
  induction m with
  | nil => simp [alistSet]
  | cons p rest ih =>
      obtain ⟨k', v'⟩ := p
      by_cases hk : k' = k
      · subst hk
        simp [alistSet]
      · by_cases hmem : k ∈ rest.map Prod.fst <;>
          simp [alistSet, hk, Ne.symm hk, ih, hmem]

theorem keys_nodup_alistSet {α : Type} (m : List (String × α)) (k : String)
    (v : α) (h : (m.map Prod.fst).Nodup) :
    ((alistSet m k v).map Prod.fst).Nodup := by
  rw [alistSet_keys]
  by_cases hmem : k ∈ m.map Prod.fst
  · simpa [hmem] using h
  · simpa [hmem, List.nodup_append] using h

theorem alistSet_filter_key {α : Type} (m : List (String × α)) (k : String)
    (v : α) (h : (m.map Prod.fst).Nodup) :
    (alistSet m k v).filter (fun p => p.1 = k) = [(k, v)] := by
  induction m with
  | nil => simp [alistSet]
  | cons p rest ih =>
      obtain ⟨k', v'⟩ := p
      simp only [List.map_cons, List.nodup_cons] at h
      by_cases hk : k' = k
      · subst hk
        simp [alistSet, List.filter_cons, filter_key_of_not_mem rest k' h.1]
      · simp [alistSet, hk, List.filter_cons, Ne.symm hk, ih h.2]

theorem enemyOnDamage_health (e : Enemy) (a : ℚ) (t : String) (n : ℚ) :
    (enemyOnDamage e a t n).health = e.health := rfl

theorem enemyOnDamage_maxHealth (e : Enemy) (a : ℚ) (t : String) (n : ℚ) :
    (enemyOnDamage e a t n).maxHealth = e.maxHealth := rfl

theorem updateStatusEffects_isDead (e : Enemy) (d : ℚ) :
    (updateStatusEffects e d).isDead = e.isDead := rfl

theorem updateStatusEffects_health (e : Enemy) (d : ℚ) :
    (updateStatusEffects e d).health = e.health := rfl

theorem updateStatusEffects_stats (e : Enemy) (d : ℚ) :
    (updateStatusEffects e d).stats = e.stats := rfl

theorem tickInvulnerability_isDead (e : Enemy) (d : ℚ) :
    (tickInvulnerability e d).isDead = e.isDead := by
  unfold tickInvulnerability; dsimp only; split_ifs <;> rfl

theorem tickInvulnerability_health (e : Enemy) (d : ℚ) :
    (tickInvulnerability e d).health = e.health := by
  unfold tickInvulnerability; dsimp only; split_ifs <;> rfl

theorem tickInvulnerability_stats (e : Enemy) (d : ℚ) :
    (tickInvulnerability e d).stats = e.stats := by
  unfold tickInvulnerability; dsimp only; split_ifs <;> rfl

theorem tickDamageFlash_isDead (e : Enemy) (d : ℚ) :
    (tickDamageFlash e d).isDead = e.isDead := by
  unfold tickDamageFlash; split_ifs <;> rfl

theorem tickDamageFlash_health (e : Enemy) (d : ℚ) :
    (tickDamageFlash e d).health = e.health := by
  unfold tickDamageFlash; split_ifs <;> rfl

theorem tickDamageFlash_stats (e : Enemy) (d : ℚ) :
    (tickDamageFlash e d).stats = e.stats := by
  unfold tickDamageFlash; split_ifs <;> rfl

/-- C1 claims that physical damage lowers health by `max(1, amount - armor)`
and magic damage by `max(1, amount * (1 - magicResist))`.  In the code,
`LivingEntity.takeDamage` already subtracted the raw amount before
`Enemy.onDamage` runs, and the armor-reduced `finalDamage` computed there is
written only to the display field.  Failing input: a fresh Knight (health 80,
armor 3) hit by 10 physical damage ends at health 70 (raw reduction), while
the claim demands a reduction of `max(1, 10 - 3) = 7`, the very value the
code records as the displayed damage. -/
theorem C1_armor_reduction_never_applied_to_health :
    ((takeDamage (mkKnight 1 0 0) 10 "physical" 0).1.health = 70) ∧
    ((takeDamage (mkKnight 1 0 0) 10 "physical" 0).1.lastDamageAmount = 7) ∧
    (max 1 ((10 : ℚ) - (mkKnight 1 0 0).stats.armor) = 7) ∧
    ((takeDamage (mkDragon 2 0 0) 10 "magic" 0).1.health = 40) ∧
    (max 1 ((10 : ℚ) * (1 - (mkDragon 2 0 0).stats.magicResist)) = 7) := by
  refine ⟨?_, ?_, ?_, ?_, ?_⟩ <;>
    norm_num [takeDamage, enemyOnDamage, mkKnight, mkDragon, jsRound, max_def]

/-- C2 claims the stored status-effect entry carries
`duration * (1 - resistance)` and `strength * (1 - resistance)`.  In the code,
`LivingEntity.applyStatusEffect` stores the raw incoming values before the
`Enemy.onStatusEffectApplied` hook runs, and the hook's scaling reassigns its
local parameters only.  Failing input: a fresh Knight (30% slow resistance)
receiving `slow(1000, 0.4)` stores `{duration 1000, strength 0.4}`, while the
claim demands `{700, 0.28}` — exactly the pair the hook computes and then
discards. -/
theorem C2_resistance_scaling_never_stored :
    (alistGet
        (applyStatusEffect (mkKnight 1 0 0) "slow" 1000 (4 / 10) 0).statusEffects
        "slow" = some ⟨1000, 4 / 10, 0⟩) ∧
    (statusEffectAppliedLocals (mkKnight 1 0 0) "slow" 1000 (4 / 10)
      = (700, 28 / 100)) := by
  constructor
  · rfl
  · norm_num [statusEffectAppliedLocals, mkKnight, alistGet, Prod.ext_iff]

/-- C3 as stated is false: `Enemy.onDeath` grants the gold and score rewards
unconditionally, so invoking the hook a second time on an already-dead Scout
(gold reward 2) raises gold again (0 → 2 → 4). -/
theorem C3_counterexample_direct_second_death_call_pays_again :
    ((enemyOnDeath (enemyOnDeath (mkScout 1 0 0) ⟨0, 0⟩).1
        (enemyOnDeath (mkScout 1 0 0) ⟨0, 0⟩).2).2.gold = 4) ∧
    ((enemyOnDeath (mkScout 1 0 0) ⟨0, 0⟩).2.gold = 2) := by
  constructor <;> norm_num [enemyOnDeath, livingOnDeath, mkScout]

theorem livingUpdate_step_dead (e : Enemy) (d : ℚ) (g : GameRes)
    (h : e.isDead = true) :
    livingUpdate e d g = ((livingUpdate e d g).1, g) ∧
      (livingUpdate e d g).1.isDead = true := by
  have h3 :
      (updateStatusEffects (tickDamageFlash (tickInvulnerability e d) d)
        d).isDead = true := by
    rw [updateStatusEffects_isDead, tickDamageFlash_isDead,
      tickInvulnerability_isDead, h]
  unfold livingUpdate
  rw [if_neg (by simp [h3])]
  exact ⟨rfl, h3⟩

/-- C3 amended: the reward grant is idempotent at the update-loop level, not
at the hook level.  `LivingEntity.update` guards the death hook with
`health ≤ 0 ∧ ¬isDead`, and the hook sets `isDead`; hence a dying enemy's
update grants the rewards exactly once, and every later update of the dead
enemy leaves gold and score unchanged — but a direct second call of
`onDeath` itself would pay again. -/
theorem C3_amended_update_loop_grants_rewards_once :
    ∀ (e : Enemy) (d : ℚ) (deltas : List ℚ) (g : GameRes),
      (e.isDead = false → e.health ≤ 0 →
        (livingUpdate e d g).2.gold = g.gold + e.stats.goldReward ∧
        (livingUpdate e d g).2.score = g.score + e.stats.scoreReward ∧
        (livingUpdate e d g).1.isDead = true) ∧
      (e.isDead = true → (livingUpdateRun e deltas g).2 = g) := by
  intro e d deltas g
  constructor
  · intro hdead hhp
    have h3d :
        (updateStatusEffects (tickDamageFlash (tickInvulnerability e d) d)
          d).isDead = false := by
      rw [updateStatusEffects_isDead, tickDamageFlash_isDead,
        tickInvulnerability_isDead, hdead]
    have h3h :
        (updateStatusEffects (tickDamageFlash (tickInvulnerability e d) d)
          d).health = e.health := by
      rw [updateStatusEffects_health, tickDamageFlash_health,
        tickInvulnerability_health]
    have h3s :
        (updateStatusEffects (tickDamageFlash (tickInvulnerability e d) d)
          d).stats = e.stats := by
      rw [updateStatusEffects_stats, tickDamageFlash_stats,
        tickInvulnerability_stats]
    unfold livingUpdate
    rw [if_pos ⟨by rw [h3h]; exact hhp, by simp [h3d]⟩]
    simp [enemyOnDeath, livingOnDeath, h3s]
  · intro hdead
    induction deltas generalizing e g with
    | nil => rfl
    | cons d' rest ih =>
        have hstep := livingUpdate_step_dead e d' g hdead
        simp only [livingUpdateRun]
        rw [hstep.1]
        exact ih _ _ hstep.2

/-- Witness for C3's amended theorem at a concrete input: a freshly killed
Scout's update pays 2 gold and 5 score once, and updating the dead Scout
afterwards changes nothing. -/
theorem C3_amended_witness :
    (livingUpdate { mkScout 1 0 0 with health := 0 } 16 ⟨0, 0⟩).2.gold =
        0 + (mkScout 1 0 0).stats.goldReward ∧
      (livingUpdateRun { mkScout 1 0 0 with isDead := true } [16, 16] ⟨3, 4⟩).2
        = ⟨3, 4⟩ :=
  ⟨((C3_amended_update_loop_grants_rewards_once
      { mkScout 1 0 0 with health := 0 } 16 [] ⟨0, 0⟩).1 rfl le_rfl).1,
   (C3_amended_update_loop_grants_rewards_once
      { mkScout 1 0 0 with isDead := true } 0 [16, 16] ⟨3, 4⟩).2 rfl⟩

theorem applyLifeOp_bounds (e : Enemy) (op : LifeOp) (h0 : 0 ≤ e.health)
    (h1 : e.health ≤ e.maxHealth) (ha : 0 ≤ op.amount) :
    0 ≤ (applyLifeOp e op).health ∧
      (applyLifeOp e op).health ≤ (applyLifeOp e op).maxHealth ∧
      (applyLifeOp e op).maxHealth = e.maxHealth := by
  cases op with
  | damage a t n =>
      simp only [LifeOp.amount] at ha
      simp only [applyLifeOp, takeDamage]
      split_ifs with h
      · exact ⟨h0, h1, rfl⟩
      · dsimp only
        rw [enemyOnDamage_health, enemyOnDamage_maxHealth]
        refine ⟨le_max_left 0 _, ?_, rfl⟩
        exact max_le (le_trans h0 h1) (by linarith)
  | heal a =>
      simp only [LifeOp.amount] at ha
      simp only [applyLifeOp, heal]
      split_ifs with h
      · exact ⟨h0, h1, rfl⟩
      · refine ⟨le_min (le_trans h0 h1) (by linarith), min_le_left _ _, rfl⟩

/-- C6: health stays within `[0, maxHealth]` across any sequence of
`takeDamage` and `heal` calls with nonnegative amounts: `takeDamage` clamps
at 0 from below (`Math.max(0, ...)`) and `heal` clamps at `maxHealth` from
above (`Math.min(maxHealth, ...)`).  Since the theorem quantifies over all
call sequences, the invariant holds after every prefix, i.e. after each
call. -/
theorem C6_health_always_between_zero_and_max :
    ∀ (e : Enemy) (ops : List LifeOp),
      0 ≤ e.health → e.health ≤ e.maxHealth →
      (∀ op ∈ ops, 0 ≤ op.amount) →
      0 ≤ (runLifeOps e ops).health ∧
        (runLifeOps e ops).health ≤ (runLifeOps e ops).maxHealth := by
  intro e ops
  induction ops generalizing e with
  | nil => intro h0 h1 _; exact ⟨h0, h1⟩
  | cons op rest ih =>
      intro h0 h1 hops
      have hstep := applyLifeOp_bounds e op h0 h1 (hops op (by simp))
      have := ih (applyLifeOp e op) hstep.1 hstep.2.1
        (fun o ho => hops o (by simp [ho]))
      simpa [runLifeOps] using this

/-- Witness for C6 at a concrete input: a Scout hit for 5 physical then
healed for 3 keeps its health inside `[0, 20]`. -/
theorem C6_witness :
    0 ≤ (runLifeOps (mkScout 1 0 0)
        [LifeOp.damage 5 "physical" 0, LifeOp.heal 3]).health ∧
      (runLifeOps (mkScout 1 0 0)
        [LifeOp.damage 5 "physical" 0, LifeOp.heal 3]).health ≤
        (runLifeOps (mkScout 1 0 0)
          [LifeOp.damage 5 "physical" 0, LifeOp.heal 3]).maxHealth :=
  C6_health_always_between_zero_and_max (mkScout 1 0 0)
    [LifeOp.damage 5 "physical" 0, LifeOp.heal 3]
    (by norm_num [mkScout]) (by norm_num [mkScout])
    (by
      intro op hop
      simp only [List.mem_cons, List.mem_singleton] at hop
      rcases hop with h | h | h <;> first | subst h; norm_num [LifeOp.amount] | simp_all)

/-- C7: `applyStatusEffect` upserts.  Applying `slow(1000, 0.5)` and then —
before the first expires — `slow(500, 0.3)` to any enemy whose status map
satisfies the JS-`Map` representation invariant (no duplicate keys) leaves
exactly one `slow` entry, carrying duration 500 and strength 0.3 (the stored
entry is the raw one regardless of resistance, so zero slow resistance is
covered).  The mid-sequence `updateStatusEffects` tick models time passing
while the first application is still active. -/
theorem C7_status_effect_reapplication_replaces :
    ∀ (e : Enemy) (t1 t2 : ℚ),
      (e.statusEffects.map Prod.fst).Nodup →
      ((applyStatusEffect
          (updateStatusEffects (applyStatusEffect e "slow" 1000 (1 / 2) t1) 100)
          "slow" 500 (3 / 10) t2).statusEffects.filter
        (fun p => p.1 = "slow")) = [("slow", ⟨500, 3 / 10, t2⟩)] := by
  intro e t1 t2 hnodup
  apply alistSet_filter_key
  have h1 : (((applyStatusEffect e "slow" 1000 (1 / 2) t1).statusEffects.map
      Prod.fst)).Nodup := keys_nodup_alistSet _ _ _ hnodup
  simp only [updateStatusEffects, applyStatusEffect]
  have : ∀ (l : List (String × Effect)) (d : ℚ),
      ((l.map fun p => (p.1, { p.2 with duration := p.2.duration - d })).filter
        (fun p => 0 < p.2.duration)).map Prod.fst
        |>.Sublist (l.map Prod.fst) := by
    intro l d
    induction l with
    | nil => simp
    | cons p rest ihl =>
        simp only [List.map_cons, List.filter_cons]
        split_ifs with hd
        · exact List.Sublist.cons₂ _ ihl
        · exact List.Sublist.cons _ ihl
  exact List.Nodup.sublist (this _ _) h1

/-- Witness for C7 at a concrete input: the Scout from the pool, with its
empty (trivially duplicate-free) status map. -/
theorem C7_witness :
    ((applyStatusEffect
        (updateStatusEffects (applyStatusEffect (mkScout 1 0 0) "slow" 1000 (1 / 2) 0) 100)
        "slow" 500 (3 / 10) 200).statusEffects.filter
      (fun p => p.1 = "slow")) = [("slow", ⟨500, 3 / 10, 200⟩)] :=
  C7_status_effect_reapplication_replaces (mkScout 1 0 0) 0 200 (by simp [mkScout])

/-- C10: while the invulnerability window is active or the entity is dead,
`takeDamage` — for any amount, any damage type and any caller — returns
`false` and leaves the whole entity state (health, status-effect map, dead
flag, everything) unchanged; and every successful `takeDamage` opens a
100 ms invulnerability window. -/
theorem C10_invulnerability_blocks_all_damage :
    ∀ (e : Enemy) (amount : ℚ) (damageType : String) (now : ℚ),
      ((e.invulnerable = true ∨ e.isDead = true) →
        takeDamage e amount damageType now = (e, false)) ∧
      (e.invulnerable = false → e.isDead = false →
        (takeDamage e amount damageType now).2 = true ∧
        (takeDamage e amount damageType now).1.invulnerable = true ∧
        (takeDamage e amount damageType now).1.invulnerabilityTime = 100) := by
  intro e amount damageType now
  constructor
  · intro h
    unfold takeDamage
    rw [if_pos (by rcases h with h | h <;> simp [h])]
  · intro h1 h2
    unfold takeDamage
    rw [if_neg (by simp [h1, h2])]
    exact ⟨rfl, rfl, rfl⟩

/-- Witness for C10 at concrete inputs: an invulnerable Scout takes no state
change from a 100-damage magic hit, and a fresh Scout's successful hit opens
the 100 ms window. -/
theorem C10_witness :
    (takeDamage { mkScout 1 0 0 with invulnerable := true } 100 "magic" 0 =
      ({ mkScout 1 0 0 with invulnerable := true }, false)) ∧
    ((takeDamage (mkScout 1 0 0) 100 "magic" 0).1.invulnerabilityTime = 100) :=
  ⟨(C10_invulnerability_blocks_all_damage
      { mkScout 1 0 0 with invulnerable := true } 100 "magic" 0).1 (Or.inl rfl),
   ((C10_invulnerability_blocks_all_damage (mkScout 1 0 0) 100 "magic" 0).2
      rfl rfl).2.2⟩

theorem removeFirstById_isSome (l : List Enemy) (n : ℕ)
    (h : ∃ a ∈ l, a.id = n) : (removeFirstById l n).isSome := by
  induction l with
  | nil => simp at h
  | cons a rest ih =>
      simp only [removeFirstById]
      split_ifs with ha
      · rfl
      · rcases h with ⟨b, hb, hbn⟩
        rcases List.mem_cons.mp hb with hb | hb
        · exact absurd (hb ▸ hbn) ha
        · rcases Option.isSome_iff_exists.mp (ih ⟨b, hb, hbn⟩) with ⟨l', hl'⟩
          simp [hl']

/-- C8: an enemy acquired from its type's pool, mutated arbitrarily (the
theorem quantifies over every enemy state) and released, is handed out by
the very next acquisition from that pool with its mutable state reset to
spawn defaults: health back to `maxHealth`, position at the path start, an
empty status-effect map, waypoint index 0, `currentSpeed = baseSpeed`, and
the alive/dead/invulnerable flags restored — the reset callback runs at
release time and `get` pops exactly the released instance (LIFO). -/

theorem C8_pool_round_trip_resets_enemy :
    ∀ (spawnPoint p0 : Vec2) (rest : List Vec2) (p : ObjectPool) (e : Enemy),
      (∃ a ∈ p.activeObjects, a.id = e.id) →
      ((poolGet (poolRelease (p0 :: rest) spawnPoint p e)).1 =
        resetEnemy (p0 :: rest) spawnPoint e) ∧
      ((resetEnemy (p0 :: rest) spawnPoint e).health = e.maxHealth) ∧
      ((resetEnemy (p0 :: rest) spawnPoint e).pos = p0) ∧
      ((resetEnemy (p0 :: rest) spawnPoint e).statusEffects = []) ∧
      ((resetEnemy (p0 :: rest) spawnPoint e).currentWaypoint = 0) ∧
      ((resetEnemy (p0 :: rest) spawnPoint e).currentSpeed = e.baseSpeed) ∧
      ((resetEnemy (p0 :: rest) spawnPoint e).isAlive = true) ∧
      ((resetEnemy (p0 :: rest) spawnPoint e).isDead = false) ∧
      ((resetEnemy (p0 :: rest) spawnPoint e).invulnerable = false) := by
  intro spawnPoint p0 rest p e hactive
  refine ⟨?_, rfl, rfl, rfl, rfl, rfl, rfl, rfl, rfl⟩
  rcases Option.isSome_iff_exists.mp
    (removeFirstById_isSome p.activeObjects e.id hactive) with ⟨remaining, hrem⟩
  unfold poolRelease
  rw [hrem]
  unfold poolGet
  simp

/-- Witness for C8 at a concrete input: a damaged, slowed, advanced Scout in
a one-element active list comes back fully reset. -/
theorem C8_witness :
    ((poolGet (poolRelease [⟨0, 0⟩, ⟨100, 0⟩] ⟨-30, 210⟩
        { createFn := fun i => mkScout i 0 0
          nextId := 2
          pool := []
          activeObjects :=
            [{ mkScout 1 0 0 with
                health := 3
                pos := ⟨57, 12⟩
                currentWaypoint := 1
                currentSpeed := 45
                statusEffects := [("slow", ⟨900, 1 / 2, 0⟩)] }] }
        { mkScout 1 0 0 with
            health := 3
            pos := ⟨57, 12⟩
            currentWaypoint := 1
            currentSpeed := 45
            statusEffects := [("slow", ⟨900, 1 / 2, 0⟩)] })).1 =
      resetEnemy [⟨0, 0⟩, ⟨100, 0⟩] ⟨-30, 210⟩
        { mkScout 1 0 0 with
            health := 3
            pos := ⟨57, 12⟩
            currentWaypoint := 1
            currentSpeed := 45
            statusEffects := [("slow", ⟨900, 1 / 2, 0⟩)] }) ∧
    ((resetEnemy [⟨0, 0⟩, ⟨100, 0⟩] ⟨-30, 210⟩
        { mkScout 1 0 0 with
            health := 3
            pos := ⟨57, 12⟩
            currentWaypoint := 1
            currentSpeed := 45
            statusEffects := [("slow", ⟨900, 1 / 2, 0⟩)] }).health =
      ({ mkScout 1 0 0 with
          health := 3
          pos := ⟨57, 12⟩
          currentWaypoint := 1
          currentSpeed := 45
          statusEffects := [("slow", ⟨900, 1 / 2, 0⟩)] } : Enemy).maxHealth) := by
  refine ⟨(C8_pool_round_trip_resets_enemy ⟨-30, 210⟩ ⟨0, 0⟩ [⟨100, 0⟩] _ _
      ⟨_, by simp, rfl⟩).1,
    (C8_pool_round_trip_resets_enemy ⟨-30, 210⟩ ⟨0, 0⟩ [⟨100, 0⟩]
      { createFn := fun i => mkScout i 0 0
        nextId := 2
        pool := []
        activeObjects :=
          [{ mkScout 1 0 0 with
              health := 3
              pos := ⟨57, 12⟩
              currentWaypoint := 1
              currentSpeed := 45
              statusEffects := [("slow", ⟨900, 1 / 2, 0⟩)] }] } _
      ⟨_, by simp, rfl⟩).2.1⟩

theorem validateTarget_lastAttackTime (t : Tower) (enemies : List Enemy) :
    (validateTarget t enemies).lastAttackTime = t.lastAttackTime := by
  unfold validateTarget
  cases htt : t.target with
  | none => rfl
  | some tid =>
      dsimp only
      cases hl : lookupEnemy enemies tid with
      | none => rfl
      | some en => dsimp only; split_ifs <;> rfl

theorem validateTarget_attackCooldown (t : Tower) (enemies : List Enemy) :
    (validateTarget t enemies).attackCooldown = t.attackCooldown := by
  unfold validateTarget
  cases htt : t.target with
  | none => rfl
  | some tid =>
      dsimp only
      cases hl : lookupEnemy enemies tid with
      | none => rfl
      | some en => dsimp only; split_ifs <;> rfl

theorem magicUpdate_canAttack (mt : MagicTower) (dt : ℚ)
    (enemies : List Enemy) (now : ℚ) :
    (magicUpdate mt dt enemies now).1.canAttack = mt.canAttack := by
  unfold magicUpdate
  split_ifs with h1
  · dsimp only
    split_ifs with h2
    · cases hf : findTargetFrom mt.pos mt.stats.range mt.target
          (removeSlowDeparted mt (currentInRange mt enemies)
            (magicSlowPass mt enemies now)) <;> rfl
    · rfl
  · rfl

theorem magicUpdate_not_fired_cooldown (mt : MagicTower) (dt : ℚ)
    (enemies : List Enemy) (now : ℚ) (hca : mt.canAttack = true)
    (hnf : (magicUpdate mt dt enemies now).2.2 = false) :
    (magicUpdate mt dt enemies now).1.attackCooldown =
      mt.attackCooldown - dt := by
  unfold magicUpdate at hnf ⊢
  rw [if_neg (by simp [hca])] at hnf ⊢
  dsimp only at hnf ⊢
  split_ifs at hnf ⊢ with h1
  · cases hf : findTargetFrom mt.pos mt.stats.range mt.target
        (removeSlowDeparted mt (currentInRange mt enemies)
          (magicSlowPass mt enemies now)) with
    | none => rfl
    | some first => rw [hf] at hnf; simp at hnf
  · rfl

theorem magicUpdate_fired (mt : MagicTower) (dt : ℚ) (enemies : List Enemy)
    (now : ℚ) (hca : mt.canAttack = true)
    (hf : (magicUpdate mt dt enemies now).2.2 = true) :
    mt.attackCooldown - dt ≤ 0 ∧
      (magicUpdate mt dt enemies now).1.attackCooldown =
        1000 / mt.stats.attackSpeed := by
  unfold magicUpdate at hf ⊢
  rw [if_neg (by simp [hca])] at hf ⊢
  dsimp only at hf ⊢
  split_ifs at hf ⊢ with h1
  · cases hft : findTargetFrom mt.pos mt.stats.range mt.target
        (removeSlowDeparted mt (currentInRange mt enemies)
          (magicSlowPass mt enemies now)) with
    | none => rw [hft] at hf; simp at hf
    | some first => exact ⟨h1, rfl⟩

theorem magicRun_cons (mt : MagicTower) (s : MagicStep)
    (rest : List MagicStep) :
    magicRun mt (s :: rest) =
      ((magicRun (magicUpdate mt s.deltaTime s.enemies s.now).1 rest).1,
       (magicUpdate mt s.deltaTime s.enemies s.now).2.2 ::
         (magicRun (magicUpdate mt s.deltaTime s.enemies s.now).1 rest).2) :=
  rfl

theorem magicRun_spacing :
    ∀ (steps : List MagicStep) (mt : MagicTower) (j : ℕ),
      mt.canAttack = true →
      (((magicRun mt steps).2.take j).all fun b => b = false) = true →
      (magicRun mt steps).2[j]? = some true →
      mt.attackCooldown ≤ ((steps.take (j + 1)).map MagicStep.deltaTime).sum := by
  intro steps
  induction steps with
  | nil =>
      intro mt j _ _ hj
      simp [magicRun] at hj
  | cons s rest ih =>
      intro mt j hca hall hj
      rw [magicRun_cons] at hall hj
      cases j with
      | zero =>
          simp only [List.getElem?_cons_zero, Option.some.injEq] at hj
          have hfire :=
            (magicUpdate_fired mt s.deltaTime s.enemies s.now hca hj).1
          simp only [List.take_succ_cons, List.take_zero, List.map_cons,
            List.map_nil, List.sum_cons, List.sum_nil]
          linarith
      | succ j' =>
          simp only [List.take_succ_cons, List.all_cons,
            Bool.and_eq_true] at hall
          have hflag : (magicUpdate mt s.deltaTime s.enemies s.now).2.2 =
              false := of_decide_eq_true hall.1
          have hcd := magicUpdate_not_fired_cooldown mt s.deltaTime s.enemies
            s.now hca hflag
          have hca' :
              (magicUpdate mt s.deltaTime s.enemies s.now).1.canAttack =
                true := by
            rw [magicUpdate_canAttack]; exact hca
          have hj' :
              (magicRun (magicUpdate mt s.deltaTime s.enemies s.now).1
                rest).2[j']? = some true := by
            simpa using hj
          have hrec := ih (magicUpdate mt s.deltaTime s.enemies s.now).1 j'
            hca' hall.2 hj'
          rw [hcd] at hrec
          simp only [List.take_succ_cons, List.map_cons, List.sum_cons]
          linarith

/-- C5: towers never fire faster than `1000/attackSpeed` ms.  Base
`Tower.update`: `lastAttackTime` changes only when
`now - lastAttackTime ≥ attackCooldown` (with `attackCooldown =
1000/attackSpeed` as recomputed at the latest upgrade, i.e. as it stands
when the attack fires) held at the moment of the check, and it is then set
to `now`.  Magic tower: every strike resets the independent countdown to
`1000 / attackSpeed`, and from any countdown value the next strike can only
happen once the accumulated frame deltas reach that value — so consecutive
strikes are at least `1000/attackSpeed` ms apart. -/
theorem C5_attack_cooldown_respected :
    (∀ (t : Tower) (enemies : List Enemy) (now : ℚ),
        (towerUpdate t enemies now).lastAttackTime ≠ t.lastAttackTime →
        t.attackCooldown ≤ now - t.lastAttackTime ∧
          (towerUpdate t enemies now).lastAttackTime = now) ∧
    (∀ (mt : MagicTower) (dt : ℚ) (enemies : List Enemy) (now : ℚ),
        mt.canAttack = true →
        (magicUpdate mt dt enemies now).2.2 = true →
        (magicUpdate mt dt enemies now).1.attackCooldown =
          1000 / mt.stats.attackSpeed) ∧
    (∀ (mt : MagicTower) (steps : List MagicStep) (j : ℕ),
        mt.canAttack = true →
        (((magicRun mt steps).2.take j).all fun b => b = false) = true →
        (magicRun mt steps).2[j]? = some true →
        mt.attackCooldown ≤
          ((steps.take (j + 1)).map MagicStep.deltaTime).sum) := by
  refine ⟨?_, ?_, fun mt steps j => magicRun_spacing steps mt j⟩
  · intro t enemies now h
    unfold towerUpdate at h ⊢
    by_cases hca : t.canAttack = true
    · rw [if_neg (by simp [hca])] at h ⊢
      dsimp only at h ⊢
      cases hf : findTargetFrom (validateTarget t enemies).pos
          (validateTarget t enemies).stats.range
          (validateTarget t enemies).target enemies with
      | none =>
          rw [hf] at h
          exact absurd (validateTarget_lastAttackTime t enemies) h
      | some en =>
          rw [hf] at h
          dsimp only at h ⊢
          split_ifs at h ⊢ with hg
          · refine ⟨?_, rfl⟩
            obtain ⟨-, -, hcd⟩ := hg
            rwa [validateTarget_attackCooldown,
              validateTarget_lastAttackTime] at hcd
          · exact absurd (validateTarget_lastAttackTime t enemies) h
    · rw [if_pos hca] at h
      exact absurd rfl h
  · intro mt dt enemies now hca hf
    exact (magicUpdate_fired mt dt enemies now hca hf).2

/-- Witness for C5 at concrete inputs: an Archer tower (cooldown 400 ms,
`lastAttackTime = 0`) facing a Scout at distance 10 fires at `now = 1000`
(gap 1000 ≥ 400); a fresh Magic tower (countdown 0) with a Scout in range
strikes on a 16 ms frame and resets its countdown to 1000 ms; and over the
one-step run the strike at index 0 satisfies the accumulated-delta bound. -/
theorem C5_witness :
    ((mkTower ⟨0, 0⟩ archerStats).attackCooldown ≤
        1000 - (mkTower ⟨0, 0⟩ archerStats).lastAttackTime ∧
      (towerUpdate (mkTower ⟨0, 0⟩ archerStats) [mkScout 1 10 0]
        1000).lastAttackTime = 1000) ∧
    ((magicUpdate (mkMagicTower ⟨0, 0⟩) 16 [mkScout 1 10 0]
        0).1.attackCooldown = 1000 / (mkMagicTower ⟨0, 0⟩).stats.attackSpeed) ∧
    ((mkMagicTower ⟨0, 0⟩).attackCooldown ≤
      ((([⟨16, [mkScout 1 10 0], 0⟩] : List MagicStep).take (0 + 1)).map
        MagicStep.deltaTime).sum) :=
  ⟨C5_attack_cooldown_respected.1 (mkTower ⟨0, 0⟩ archerStats)
      [mkScout 1 10 0] 1000
      (by
        norm_num [towerUpdate, validateTarget, findTargetFrom, scanNearest,
          lookupEnemy, mkTower, archerStats, mkScout, distSq]),
   C5_attack_cooldown_respected.2.1 (mkMagicTower ⟨0, 0⟩) 16
      [mkScout 1 10 0] 0 rfl
      (by
        norm_num [magicUpdate, currentInRange, removeSlowDeparted,
          magicSlowPass, findTargetFrom, scanNearest, lookupEnemy,
          applyStatusEffect, alistSet, removeStatusEffect, alistHas,
          alistGet, distSq, mkMagicTower, magicStats, mkScout]),
   C5_attack_cooldown_respected.2.2 (mkMagicTower ⟨0, 0⟩)
      [⟨16, [mkScout 1 10 0], 0⟩] 0 rfl (by simp)
      (by
        norm_num [magicRun, magicUpdate, currentInRange, removeSlowDeparted,
          magicSlowPass, findTargetFrom, scanNearest, lookupEnemy,
          applyStatusEffect, alistSet, removeStatusEffect, alistHas,
          alistGet, distSq, mkMagicTower, magicStats, mkScout])⟩

theorem chainStep_shape (cur : Enemy) (r : ℚ) (hit : List ℕ)
    (acc : Option (Enemy × ℚ)) (en : Enemy) :
    chainStep cur r hit acc en = acc ∨
      (chainStep cur r hit acc en = some (en, distSq cur.pos en.pos) ∧
        Cand cur r hit en) := by
  unfold chainStep
  split_ifs with h1
  · exact Or.inl rfl
  · push_neg at h1
    dsimp only
    cases acc with
    | none =>
        dsimp only
        split_ifs with h2
        · exact Or.inr ⟨rfl, h1.1, h1.2, h2⟩
        · exact Or.inl rfl
    | some prev =>
        dsimp only
        split_ifs with h2
        · exact Or.inr ⟨rfl, h1.1, h1.2, h2.1⟩
        · exact Or.inl rfl

theorem chainStep_le_of_cand (cur : Enemy) (r : ℚ) (hit : List ℕ)
    (acc : Option (Enemy × ℚ)) (en : Enemy) (hc : Cand cur r hit en) :
    ∃ pr, chainStep cur r hit acc en = some pr ∧
      pr.2 ≤ distSq cur.pos en.pos := by
  unfold chainStep
  rw [if_neg (by push_neg; exact ⟨hc.1, hc.2.1⟩)]
  dsimp only
  cases acc with
  | none =>
      dsimp only
      rw [if_pos hc.2.2]
      exact ⟨(en, distSq cur.pos en.pos), rfl, le_refl _⟩
  | some prev =>
      dsimp only
      by_cases h2 : distSq cur.pos en.pos ≤ r ^ 2 ∧
          distSq cur.pos en.pos < prev.2
      · rw [if_pos h2]
        exact ⟨(en, distSq cur.pos en.pos), rfl, le_refl _⟩
      · rw [if_neg h2]
        exact ⟨prev, rfl, not_lt.mp fun hlt => h2 ⟨hc.2.2, hlt⟩⟩

theorem chainStep_mono (cur : Enemy) (r : ℚ) (hit : List ℕ)
    (acc : Option (Enemy × ℚ)) (en : Enemy) (pr0 : Enemy × ℚ)
    (h : acc = some pr0) :
    ∃ pr, chainStep cur r hit acc en = some pr ∧ pr.2 ≤ pr0.2 := by
  subst h
  unfold chainStep
  split_ifs with h1
  · exact ⟨pr0, rfl, le_refl _⟩
  · dsimp only
    split_ifs with h2
    · exact ⟨(en, distSq cur.pos en.pos), rfl, le_of_lt h2.2⟩
    · exact ⟨pr0, rfl, le_refl _⟩

theorem chainStep_valid (cur : Enemy) (r : ℚ) (hit : List ℕ)
    (acc : Option (Enemy × ℚ)) (en : Enemy)
    (hacc : ∀ pr, acc = some pr →
      pr.2 = distSq cur.pos pr.1.pos ∧ Cand cur r hit pr.1) :
    ∀ pr, chainStep cur r hit acc en = some pr →
      pr.2 = distSq cur.pos pr.1.pos ∧ Cand cur r hit pr.1 := by
  intro pr hpr
  rcases chainStep_shape cur r hit acc en with h | ⟨h, hc⟩
  · rw [h] at hpr
    exact hacc pr hpr
  · rw [h] at hpr
    obtain rfl := Option.some.inj hpr
    exact ⟨rfl, hc⟩

theorem chainFold_spec (cur : Enemy) (r : ℚ) (hit : List ℕ) :
    ∀ (l : List Enemy) (acc : Option (Enemy × ℚ)),
      (∀ pr, acc = some pr →
        pr.2 = distSq cur.pos pr.1.pos ∧ Cand cur r hit pr.1) →
      (∀ pr, l.foldl (chainStep cur r hit) acc = some pr →
          (pr.2 = distSq cur.pos pr.1.pos ∧ Cand cur r hit pr.1) ∧
          (pr.1 ∈ l ∨ acc = some pr) ∧
          (∀ en ∈ l, Cand cur r hit en → pr.2 ≤ distSq cur.pos en.pos) ∧
          (∀ pr0, acc = some pr0 → pr.2 ≤ pr0.2)) ∧
      (l.foldl (chainStep cur r hit) acc = none →
          acc = none ∧ ∀ en ∈ l, ¬Cand cur r hit en) := by
  intro l
  induction l with
  | nil =>
      intro acc hacc
      constructor
      · intro pr hpr
        simp only [List.foldl_nil] at hpr
        refine ⟨hacc pr hpr, Or.inr hpr, by simp, ?_⟩
        intro pr0 h0
        rw [hpr] at h0
        exact le_of_eq (congrArg Prod.snd (Option.some.inj h0))
      · intro hnone
        simp only [List.foldl_nil] at hnone
        exact ⟨hnone, by simp⟩
  | cons hd tl ih =>
      intro acc hacc
      have hacc' := chainStep_valid cur r hit acc hd hacc
      have IH := ih (chainStep cur r hit acc hd) hacc'
      constructor
      · intro pr hpr
        simp only [List.foldl_cons] at hpr
        obtain ⟨hval, hmem, hmin, hmono⟩ := IH.1 pr hpr
        refine ⟨hval, ?_, ?_, ?_⟩
        · rcases hmem with h | h
          · exact Or.inl (List.mem_cons_of_mem _ h)
          · rcases chainStep_shape cur r hit acc hd with hs | ⟨hs, hc⟩
            · rw [hs] at h
              exact Or.inr h
            · rw [hs] at h
              obtain rfl := Option.some.inj h
              exact Or.inl (List.mem_cons_self _ _)
        · intro en hen hc
          rcases List.mem_cons.mp hen with rfl | hen'
          · obtain ⟨pr1, hpr1, hle⟩ := chainStep_le_of_cand cur r hit acc en hc
            exact le_trans (hmono pr1 hpr1) hle
          · exact hmin en hen' hc
        · intro pr0 h0
          obtain ⟨pr1, hpr1, hle⟩ := chainStep_mono cur r hit acc hd pr0 h0
          exact le_trans (hmono pr1 hpr1) hle
      · intro hnone
        simp only [List.foldl_cons] at hnone
        obtain ⟨hstep_none, htl⟩ := IH.2 hnone
        have hhd : acc = none ∧ ¬Cand cur r hit hd := by
          rcases chainStep_shape cur r hit acc hd with hs | ⟨hs, hc⟩
          · refine ⟨by rw [← hs]; exact hstep_none, ?_⟩
            intro hc
            obtain ⟨pr1, hpr1, _⟩ := chainStep_le_of_cand cur r hit acc hd hc
            rw [hstep_none] at hpr1
            exact Option.noConfusion hpr1
          · rw [hs] at hstep_none
            exact Option.noConfusion hstep_none
        refine ⟨hhd.1, ?_⟩
        intro en hen
        rcases List.mem_cons.mp hen with rfl | hen'
        · exact hhd.2
        · exact htl en hen'

theorem findNext_some_spec (cur : Enemy) (r : ℚ) (hit : List ℕ)
    (l : List Enemy) (nxt : Enemy)
    (h : findNextChainTarget cur r hit l = some nxt) :
    nxt ∈ l ∧ Cand cur r hit nxt ∧
      ∀ en ∈ l, Cand cur r hit en →
        distSq cur.pos nxt.pos ≤ distSq cur.pos en.pos := by
  unfold findNextChainTarget at h
  obtain ⟨pr, hpr, hfst⟩ := Option.map_eq_some'.mp h
  obtain ⟨⟨hval, hcand⟩, hmem, hmin, -⟩ :=
    (chainFold_spec cur r hit l none
      (fun pr h => Option.noConfusion h)).1 pr hpr
  rcases hmem with hm | hm
  · subst hfst
    refine ⟨hm, hcand, ?_⟩
    intro en hen hc
    have := hmin en hen hc
    rwa [hval] at this
  · exact Option.noConfusion hm

theorem findNext_none_spec (cur : Enemy) (r : ℚ) (hit : List ℕ)
    (l : List Enemy) (h : findNextChainTarget cur r hit l = none) :
    ∀ en ∈ l, ¬Cand cur r hit en := by
  unfold findNextChainTarget at h
  rw [Option.map_eq_none'] at h
  exact ((chainFold_spec cur r hit l none
    (fun pr h => Option.noConfusion h)).2 h).2

theorem findNext_isSome (cur : Enemy) (r : ℚ) (hit : List ℕ)
    (l : List Enemy) (hex : ∃ en ∈ l, Cand cur r hit en) :
    ∃ nxt, findNextChainTarget cur r hit l = some nxt := by
  cases hres : findNextChainTarget cur r hit l with
  | some nxt => exact ⟨nxt, rfl⟩
  | none =>
      obtain ⟨en, hen, hc⟩ := hex
      exact absurd hc (findNext_none_spec cur r hit l hres en hen)

theorem takeDamage_id (e : Enemy) (a : ℚ) (t : String) (n : ℚ) :
    (takeDamage e a t n).1.id = e.id := by
  unfold takeDamage
  split_ifs with h <;> rfl

theorem takeDamage_fresh_health (e : Enemy) (a : ℚ) (t : String) (n : ℚ)
    (h1 : e.invulnerable = false) (h2 : e.isDead = false) :
    (takeDamage e a t n).1.health = max 0 (e.health - a) := by
  unfold takeDamage
  rw [if_neg (by simp [h1, h2])]
  dsimp only
  exact enemyOnDamage_health _ _ _ _

theorem mem_attackEnemyById_of_ne (l : List Enemy) (tid : ℕ) (D n : ℚ)
    (en : Enemy) (hen : en ∈ l) (hne : en.id ≠ tid) :
    en ∈ attackEnemyById l tid D n := by
  unfold attackEnemyById
  refine List.mem_map.mpr ⟨en, hen, ?_⟩
  rw [if_neg]
  rintro ⟨h, -⟩
  exact hne h

theorem mem_of_mem_attackEnemyById_ne (l : List Enemy) (tid : ℕ) (D n : ℚ)
    (en' : Enemy) (h : en' ∈ attackEnemyById l tid D n)
    (hne : en'.id ≠ tid) : en' ∈ l := by
  unfold attackEnemyById at h
  obtain ⟨en0, hen0, heq⟩ := List.mem_map.mp h
  by_cases hc : en0.id = tid ∧ en0.isAlive = true
  · rw [if_pos hc] at heq
    exact absurd (by rw [← heq, takeDamage_id]; exact hc.1) hne
  · rw [if_neg hc] at heq
    rw [← heq]
    exact hen0

theorem damaged_mem_attackEnemyById (l : List Enemy) (tid : ℕ) (D n : ℚ)
    (en : Enemy) (hen : en ∈ l) (hid : en.id = tid)
    (ha : en.isAlive = true) :
    (takeDamage en D "normal" n).1 ∈ attackEnemyById l tid D n := by
  unfold attackEnemyById
  refine List.mem_map.mpr ⟨en, hen, ?_⟩
  rw [if_pos ⟨hid, ha⟩]

theorem exists_unhit (l : List Enemy) (hit : List ℕ)
    (hnodup : (l.map Enemy.id).Nodup) (hlen : 5 ≤ l.length)
    (hhit : hit.length ≤ 2) : ∃ en ∈ l, en.id ∉ hit := by
  by_contra hcon
  push_neg at hcon
  have hsub : (l.map Enemy.id).toFinset ⊆ hit.toFinset := by
    intro x hx
    rw [List.mem_toFinset] at hx ⊢
    obtain ⟨en, hen, rfl⟩ := List.mem_map.mp hx
    exact hcon en hen
  have h1 : (l.map Enemy.id).toFinset.card = (l.map Enemy.id).length :=
    List.toFinset_card_of_nodup hnodup
  have h2 := Finset.card_le_card hsub
  have h3 : hit.toFinset.card ≤ hit.length := hit.toFinset_card_le
  rw [List.length_map] at h1
  omega

theorem eq_of_id_eq (l : List Enemy) (h : (l.map Enemy.id).Nodup) :
    ∀ a ∈ l, ∀ b ∈ l, a.id = b.id → a = b := by
  intro a ha b hb hab
  exact List.inj_on_of_nodup_map h ha hb hab

theorem chainLoop_succ (mt : MagicTower) (now : ℚ) (fuel : ℕ) (cur : Enemy)
    (hit : List ℕ) (enemies : List Enemy) :
    chainLoop mt now (fuel + 1) cur hit enemies =
      match findNextChainTarget cur mt.chainRange hit enemies with
      | some nxt =>
          chainLoop mt now fuel nxt (hit ++ [nxt.id])
            (attackEnemyById enemies nxt.id mt.stats.damage now)
      | none => (enemies, hit) := rfl

/-- C4: with `chainCount = 3` and at least five live enemies, pairwise
within chain-radius of each other, with distinct identities, fresh (not
invulnerable, not dead, positive health), the first target in tower range:
one chain-lightning strike hits exactly the three ids
`[first, hop1, hop2]`, all distinct; each hop's target is the nearest
not-yet-hit live enemy within chain-radius of the previously hit enemy;
each of the three hit enemies loses `damage` health (clamped at 0) in the
returned enemy list; and every enemy whose id was not hit comes through
unchanged. -/
theorem C4_chain_lightning_three_distinct_nearest :
    ∀ (mt : MagicTower) (enemies : List Enemy) (first : Enemy) (now : ℚ),
      mt.chainCount = 3 →
      0 < mt.stats.damage →
      (enemies.map Enemy.id).Nodup →
      5 ≤ enemies.length →
      (∀ en ∈ enemies, en.isAlive = true ∧ en.invulnerable = false ∧
        en.isDead = false ∧ 0 < en.health) →
      (∀ en1 ∈ enemies, ∀ en2 ∈ enemies,
        distSq en1.pos en2.pos ≤ mt.chainRange ^ 2) →
      first ∈ enemies →
      distSq mt.pos first.pos ≤ mt.stats.range ^ 2 →
      ∃ e1 ∈ enemies, ∃ e2 ∈ enemies,
        (performChainLightning mt first enemies now).2 =
          [first.id, e1.id, e2.id] ∧
        (performChainLightning mt first enemies now).2.Nodup ∧
        NearestChainHop enemies mt.chainRange first e1 [first.id] ∧
        NearestChainHop enemies mt.chainRange e1 e2 [first.id, e1.id] ∧
        (∀ en ∈ enemies,
          en.id ∈ (performChainLightning mt first enemies now).2 →
          ∃ en' ∈ (performChainLightning mt first enemies now).1,
            en'.id = en.id ∧
              en'.health = max 0 (en.health - mt.stats.damage)) ∧
        (∀ en ∈ enemies,
          en.id ∉ (performChainLightning mt first enemies now).2 →
          en ∈ (performChainLightning mt first enemies now).1) := by
  intro mt enemies first now hcc hdmg hids hlen hfresh hpair hfirst hrange
  have hfirstfresh := hfresh first hfirst
  -- the list after the first hit
  have hex1 : ∃ en ∈ attackEnemyById enemies first.id mt.stats.damage now,
      Cand first mt.chainRange [first.id] en := by
    obtain ⟨en, hen, hnin⟩ := exists_unhit enemies [first.id] hids hlen
      (by simp)
    have hne : en.id ≠ first.id := by simpa using hnin
    exact ⟨en, mem_attackEnemyById_of_ne _ _ _ _ en hen hne,
      (hfresh en hen).1, hnin, hpair first hfirst en hen⟩
  obtain ⟨e1, he1⟩ := findNext_isSome first mt.chainRange [first.id]
    (attackEnemyById enemies first.id mt.stats.damage now) hex1
  obtain ⟨he1mem, he1cand, he1min⟩ := findNext_some_spec first mt.chainRange
    [first.id] (attackEnemyById enemies first.id mt.stats.damage now) e1 he1
  have he1ne : e1.id ≠ first.id := by simpa using he1cand.2.1
  have he1orig : e1 ∈ enemies :=
    mem_of_mem_attackEnemyById_ne _ _ _ _ e1 he1mem he1ne
  -- the list after the second hit
  have hex2 : ∃ en ∈ attackEnemyById
      (attackEnemyById enemies first.id mt.stats.damage now) e1.id
      mt.stats.damage now, Cand e1 mt.chainRange [first.id, e1.id] en := by
    obtain ⟨en, hen, hnin⟩ := exists_unhit enemies [first.id, e1.id] hids hlen
      (by simp)
    have hne1 : en.id ≠ first.id := by simp at hnin; exact hnin.1
    have hne2 : en.id ≠ e1.id := by simp at hnin; exact hnin.2
    refine ⟨en, mem_attackEnemyById_of_ne _ _ _ _ en
      (mem_attackEnemyById_of_ne _ _ _ _ en hen hne1) hne2,
      (hfresh en hen).1, hnin, hpair e1 he1orig en hen⟩
  obtain ⟨e2, he2⟩ := findNext_isSome e1 mt.chainRange [first.id, e1.id]
    (attackEnemyById (attackEnemyById enemies first.id mt.stats.damage now)
      e1.id mt.stats.damage now) hex2
  obtain ⟨he2mem, he2cand, he2min⟩ := findNext_some_spec e1 mt.chainRange
    [first.id, e1.id]
    (attackEnemyById (attackEnemyById enemies first.id mt.stats.damage now)
      e1.id mt.stats.damage now) e2 he2
  have he2ne1 : e2.id ≠ first.id := by
    have := he2cand.2.1; simp at this; exact this.1
  have he2ne2 : e2.id ≠ e1.id := by
    have := he2cand.2.1; simp at this; exact this.2
  have he2orig : e2 ∈ enemies :=
    mem_of_mem_attackEnemyById_ne _ _ _ _ e2
      (mem_of_mem_attackEnemyById_ne _ _ _ _ e2 he2mem he2ne2) he2ne1
  -- evaluate the chain
  have hres : performChainLightning mt first enemies now =
      (attackEnemyById
        (attackEnemyById (attackEnemyById enemies first.id mt.stats.damage
          now) e1.id mt.stats.damage now) e2.id mt.stats.damage now,
       [first.id, e1.id, e2.id]) := by
    unfold performChainLightning
    rw [hcc]
    rw [show (3 : ℕ) - 1 = 1 + 1 from rfl, chainLoop_succ, he1]
    dsimp only
    simp only [List.cons_append, List.nil_append]
    rw [show (1 : ℕ) = 0 + 1 from rfl, chainLoop_succ, he2]
    dsimp only
    simp only [chainLoop, List.cons_append, List.nil_append]
  refine ⟨e1, he1orig, e2, he2orig, by rw [hres], ?_, ?_, ?_, ?_, ?_⟩
  · rw [hres]
    simp [he1ne.symm, he2ne1.symm, he2ne2.symm, Ne.symm]
  · -- hop 1 nearest (over the original list)
    refine ⟨he1cand.1, he1cand.2.1, he1cand.2.2, ?_⟩
    intro other hother hoalive hohit hodist
    have hone : other.id ≠ first.id := by simpa using hohit
    exact he1min other (mem_attackEnemyById_of_ne _ _ _ _ other hother hone)
      ⟨hoalive, hohit, hodist⟩
  · -- hop 2 nearest (over the original list)
    refine ⟨he2cand.1, he2cand.2.1, he2cand.2.2, ?_⟩
    intro other hother hoalive hohit hodist
    have hone1 : other.id ≠ first.id := by simp at hohit; exact hohit.1
    have hone2 : other.id ≠ e1.id := by simp at hohit; exact hohit.2
    exact he2min other
      (mem_attackEnemyById_of_ne _ _ _ _ other
        (mem_attackEnemyById_of_ne _ _ _ _ other hother hone1) hone2)
      ⟨hoalive, hohit, hodist⟩
  · -- each hit enemy loses `damage` health in the returned list
    intro en hen henhit
    rw [hres] at henhit ⊢
    simp only [List.mem_cons, List.not_mem_nil, or_false] at henhit
    have he1fresh := hfresh e1 he1orig
    have he2fresh := hfresh e2 he2orig
    rcases henhit with h | h | h
    · -- en = first
      obtain rfl := eq_of_id_eq enemies hids en hen first hfirst h
      refine ⟨(takeDamage en mt.stats.damage "normal" now).1, ?_, ?_, ?_⟩
      · apply mem_attackEnemyById_of_ne
        · apply mem_attackEnemyById_of_ne
          · exact damaged_mem_attackEnemyById _ _ _ _ en hen rfl
              (hfresh en hen).1
          · rw [takeDamage_id]; exact fun hx => he1ne hx.symm
        · rw [takeDamage_id]; exact fun hx => he2ne1 hx.symm
      · exact takeDamage_id en mt.stats.damage "normal" now
      · exact takeDamage_fresh_health en mt.stats.damage "normal" now
          (hfresh en hen).2.1 (hfresh en hen).2.2.1
    · -- en = e1
      obtain rfl := eq_of_id_eq enemies hids en hen e1 he1orig h
      refine ⟨(takeDamage en mt.stats.damage "normal" now).1, ?_, ?_, ?_⟩
      · apply mem_attackEnemyById_of_ne
        · exact damaged_mem_attackEnemyById _ _ _ _ en he1mem rfl he1cand.1
        · rw [takeDamage_id]; exact fun hx => he2ne2 hx.symm
      · exact takeDamage_id en mt.stats.damage "normal" now
      · exact takeDamage_fresh_health en mt.stats.damage "normal" now
          (hfresh en hen).2.1 (hfresh en hen).2.2.1
    · -- en = e2
      obtain rfl := eq_of_id_eq enemies hids en hen e2 he2orig h
      refine ⟨(takeDamage en mt.stats.damage "normal" now).1, ?_, ?_, ?_⟩
      · exact damaged_mem_attackEnemyById _ _ _ _ en he2mem rfl he2cand.1
      · exact takeDamage_id en mt.stats.damage "normal" now
      · exact takeDamage_fresh_health en mt.stats.damage "normal" now
          (hfresh en hen).2.1 (hfresh en hen).2.2.1
  · -- untouched enemies pass through unchanged
    intro en hen henout
    rw [hres] at henout ⊢
    simp only [List.mem_cons, List.not_mem_nil, or_false, not_or] at henout
    apply mem_attackEnemyById_of_ne
    · apply mem_attackEnemyById_of_ne
      · exact mem_attackEnemyById_of_ne _ _ _ _ en hen henout.1
      · exact henout.2.1
    · exact henout.2.2

/-- Witness for C4 at a concrete input: a fresh magic tower at the origin
striking the cluster of five Scouts with first target the Scout at
`(10, 0)`. -/
theorem C4_witness :
    ∃ e1 ∈ clusteredScouts, ∃ e2 ∈ clusteredScouts,
      (performChainLightning (mkMagicTower ⟨0, 0⟩) (mkScout 1 10 0)
        clusteredScouts 0).2 = [(mkScout 1 10 0).id, e1.id, e2.id] ∧
      (performChainLightning (mkMagicTower ⟨0, 0⟩) (mkScout 1 10 0)
        clusteredScouts 0).2.Nodup ∧
      NearestChainHop clusteredScouts (mkMagicTower ⟨0, 0⟩).chainRange
        (mkScout 1 10 0) e1 [(mkScout 1 10 0).id] ∧
      NearestChainHop clusteredScouts (mkMagicTower ⟨0, 0⟩).chainRange e1 e2
        [(mkScout 1 10 0).id, e1.id] ∧
      (∀ en ∈ clusteredScouts,
        en.id ∈ (performChainLightning (mkMagicTower ⟨0, 0⟩)
          (mkScout 1 10 0) clusteredScouts 0).2 →
        ∃ en' ∈ (performChainLightning (mkMagicTower ⟨0, 0⟩)
            (mkScout 1 10 0) clusteredScouts 0).1,
          en'.id = en.id ∧
            en'.health =
              max 0 (en.health - (mkMagicTower ⟨0, 0⟩).stats.damage)) ∧
      (∀ en ∈ clusteredScouts,
        en.id ∉ (performChainLightning (mkMagicTower ⟨0, 0⟩)
          (mkScout 1 10 0) clusteredScouts 0).2 →
        en ∈ (performChainLightning (mkMagicTower ⟨0, 0⟩)
          (mkScout 1 10 0) clusteredScouts 0).1) :=
  C4_chain_lightning_three_distinct_nearest (mkMagicTower ⟨0, 0⟩)
    clusteredScouts (mkScout 1 10 0) 0
    rfl
    (by norm_num [mkMagicTower, magicStats])
    (by simp [clusteredScouts, mkScout])
    (by simp [clusteredScouts])
    (by
      intro en hen
      simp only [clusteredScouts] at hen
      fin_cases hen <;> norm_num [mkScout])
    (by
      intro a ha b hb
      simp only [clusteredScouts] at ha hb
      fin_cases ha <;> fin_cases hb <;>
        norm_num [distSq, mkScout, mkMagicTower])
    (by simp [clusteredScouts])
    (by norm_num [distSq, mkScout, mkMagicTower, magicStats])

/-- C9: placing an Archer (cost 10) with gold 10 on a valid cell succeeds
and leaves gold 0 with one more tower; any placement attempt with gold 0
returns the state unchanged (every kind costs more than 0); and in general
a placement call either leaves the whole state untouched or — when a kind
is selected, the cell valid and gold sufficient — adds exactly one tower
and deducts exactly its cost in the same synchronous step. -/
theorem C9_placement_deducts_iff_tower_added :
    (∀ (s : GState) (x y : ℚ),
        s.gold = 10 → s.selectedTowerType = some TowerKind.archer →
        canPlaceTower s.env s.towers ((⌊x / 40⌋ : ℚ) * 40 + 40 / 2)
          ((⌊y / 40⌋ : ℚ) * 40 + 40 / 2) = true →
        (gamePlaceTower s x y).gold = 0 ∧
          (gamePlaceTower s x y).towers.length = s.towers.length + 1) ∧
    (∀ (s : GState) (x y : ℚ), s.gold = 0 → gamePlaceTower s x y = s) ∧
    (∀ (s : GState) (x y : ℚ),
        gamePlaceTower s x y = s ∨
        ∃ kind, s.selectedTowerType = some kind ∧
          towerCost kind ≤ s.gold ∧
          (gamePlaceTower s x y).gold = s.gold - towerCost kind ∧
          (gamePlaceTower s x y).towers.length = s.towers.length + 1) := by
  have hlen : ∀ (towers : List Tower) (kind : TowerKind) (gx gy : ℚ),
      (tmPlaceTower towers kind gx gy).1.length = towers.length + 1 := by
    intro towers kind gx gy
    cases kind <;> simp [tmPlaceTower]
  refine ⟨?_, ?_, ?_⟩
  · intro s x y hgold hsel hcan
    unfold gamePlaceTower
    rw [hsel]
    dsimp only
    rw [if_neg (by simp [hcan]), if_pos (by rw [hgold]; norm_num [towerCost])]
    exact ⟨by rw [hgold]; norm_num [towerCost],
      by simpa using hlen s.towers TowerKind.archer _ _⟩
  · intro s x y hgold
    unfold gamePlaceTower
    cases hsel : s.selectedTowerType with
    | none => rfl
    | some kind =>
        dsimp only
        split_ifs with h1 h2
        · rw [hgold] at h2
          cases kind <;> norm_num [towerCost] at h2
        · rfl
        · rfl
  · intro s x y
    unfold gamePlaceTower
    cases hsel : s.selectedTowerType with
    | none => exact Or.inl rfl
    | some kind =>
        dsimp only
        split_ifs with h1 h2
        · exact Or.inr ⟨kind, rfl, h2, rfl,
            by simpa using hlen s.towers kind _ _⟩
        · exact Or.inl rfl
        · exact Or.inl rfl

/-- Witness for C9 at a concrete input: clicking cell `(0,0)` of
`placementDemo` places the Archer and zeroes the gold. -/
theorem C9_witness :
    (gamePlaceTower placementDemo 10 10).gold = 0 ∧
      (gamePlaceTower placementDemo 10 10).towers.length =
        placementDemo.towers.length + 1 :=
  C9_placement_deducts_iff_tower_added.1 placementDemo 10 10 rfl rfl
    (by norm_num [canPlaceTower, placementDemo])

end TowerDefense
